import Mathlib

/-!
Verification of the MyPython lexical scanner (src/MyPython.cpp).

The C++ source is a single-pass character-by-character scanner.  We embed it
shallowly: characters are `Int` (the value returned by `fstream::get`, `-1`
at end of input), the stream is a list of remaining characters together with
an eof/fail bit (as set by a failed `get`/`peek`), and every `parse_token`
member function becomes a Lean function from stream states to stream states.
The char-literal sub-scanner and the driver loop are given explicit fuel,
because the char-literal loop of the source does not terminate on
unterminated input; all other loops terminate structurally and are defined
by well-founded recursion on a stream measure.
-/

namespace MyPython

/-- The classification functions of `<cctype>` in the C locale, on the
`int` values the scanner feeds them (`-1` is classified negatively). -/
def isalpha (c : Int) : Bool := (65 ≤ c && c ≤ 90) || (97 ≤ c && c ≤ 122)

def isdigit (c : Int) : Bool := 48 ≤ c && c ≤ 57

def isalnum (c : Int) : Bool := isalpha c || isdigit c

def isxdigit (c : Int) : Bool :=
  isdigit c || (65 ≤ c && c ≤ 70) || (97 ≤ c && c ≤ 102)

def isspace (c : Int) : Bool := c == 32 || (9 ≤ c && c ≤ 13)

def ispunct (c : Int) : Bool := 33 ≤ c && c ≤ 126 && !isalnum c

/-- The character source: the remaining characters of the file plus the
eof/fail state of the `fstream`.  Once a read has failed (`eofbit` set),
every further `get`/`peek` fails and returns `-1`, as in C++. -/
structure CharStream where
  chars : List Int
  eofbit : Bool
deriving DecidableEq, Repr

/-- `stream.get()`: consume and return one character; at end of input
return `-1` and set the eof bit. -/
def CharStream.get (s : CharStream) : Int × CharStream :=
  if s.eofbit then (-1, s)
  else
    match s.chars with
    | [] => (-1, { s with eofbit := true })
    | c :: cs => (c, { s with chars := cs })

/-- `stream.peek()`: return the next character without consuming it; at end
of input return `-1` and set the eof bit. -/
def CharStream.peek (s : CharStream) : Int × CharStream :=
  if s.eofbit then (-1, s)
  else
    match s.chars with
    | [] => (-1, { s with eofbit := true })
    | c :: cs => (c, ⟨c :: cs, s.eofbit⟩)

/-- Termination measure for the scanning loops: every successful `get`
consumes a character, and a failed one sets the eof bit. -/
def CharStream.measure (s : CharStream) : Nat :=
  s.chars.length + (if s.eofbit then 0 else 1)

theorem get_measure_le (s : CharStream) : s.get.2.measure ≤ s.measure := by
  obtain ⟨cs, b⟩ := s
  cases b <;> cases cs <;> simp [CharStream.get, CharStream.measure]

theorem peek_measure_le (s : CharStream) : s.peek.2.measure ≤ s.measure := by
  obtain ⟨cs, b⟩ := s
  cases b <;> cases cs <;> simp [CharStream.peek, CharStream.measure]

theorem get_measure_lt {s : CharStream} (h : s.get.1 ≠ -1) :
    s.get.2.measure < s.measure := by
  obtain ⟨cs, b⟩ := s
  cases b <;> cases cs <;>
    simp [CharStream.get, CharStream.measure] at h ⊢

theorem get_measure_lt_of_not_eof {s : CharStream} (h : s.eofbit = false) :
    s.get.2.measure < s.measure := by
  obtain ⟨cs, b⟩ := s
  cases b <;> cases cs <;>
    simp_all [CharStream.get, CharStream.measure]

theorem peek_fst_ne_neg_one {s : CharStream} (h : s.peek.1 ≠ -1) :
    s.peek.2 = s ∧ s.eofbit = false ∧ s.chars ≠ [] := by
  obtain ⟨cs, b⟩ := s
  cases b <;> cases cs <;>
    simp_all [CharStream.peek, CharStream.measure]

theorem isspace_ne_neg_one {c : Int} (h : isspace c = true) : c ≠ -1 := by
  intro hc; subst hc; simp [isspace] at h

theorem isalnum_ne_neg_one {c : Int} (h : isalnum c = true) : c ≠ -1 := by
  intro hc; subst hc; simp [isalnum, isalpha, isdigit] at h

theorem isxdigit_ne_neg_one {c : Int} (h : isxdigit c = true) : c ≠ -1 := by
  intro hc; subst hc; simp [isxdigit, isdigit] at h

/-- `symbol_token::parse_token` (source lines 185-195): the lead character
is already in `acc`; consume the alphanumeric/underscore run and return the
lexeme, the lookahead character and the stream. -/
def symbol_loop (s : CharStream) (acc : List Int) : List Int × Int × CharStream :=
  let g := s.get
  if h : isalpha g.1 || isdigit g.1 || g.1 == 95 then
    symbol_loop g.2 (acc ++ [g.1])
  else
    (acc, g.1, g.2)
termination_by s.measure
decreasing_by
  apply get_measure_lt
  intro hc
  rw [hc] at h
  simp [isalpha, isdigit] at h

/-- The decimal loop of `integer_token::parse_token` (source lines 221-228). -/
def dec_loop (s : CharStream) (acc : List Int) : List Int × Int × CharStream :=
  let g := s.get
  if h : isdigit g.1 then
    dec_loop g.2 (acc ++ [g.1])
  else
    (acc, g.1, g.2)
termination_by s.measure
decreasing_by
  apply get_measure_lt
  intro hc
  rw [hc] at h
  simp [isdigit] at h

/-- The hexadecimal loop of `integer_token::parse_token` (source lines 211-218). -/
def hex_loop (s : CharStream) (acc : List Int) : List Int × Int × CharStream :=
  let g := s.get
  if h : isxdigit g.1 then
    hex_loop g.2 (acc ++ [g.1])
  else
    (acc, g.1, g.2)
termination_by s.measure
decreasing_by
  exact get_measure_lt (isxdigit_ne_neg_one h)

/-- `integer_token::parse_token` (source lines 203-229): `c` is the lead
digit; a lead `0` followed by `x`/`X` switches to the hexadecimal loop. -/
def integer_parse (c : Int) (s : CharStream) : List Int × Int × CharStream :=
  if c = 48 then
    let p := s.peek
    if p.1 = 88 ∨ p.1 = 120 then
      let g := p.2.get
      hex_loop g.2 [c, p.1]
    else
      dec_loop p.2 [c]
  else
    dec_loop s [c]

/-- An unterminated-string-literal condition, reported with `exit(0)`
by the source. -/
inductive FatalMsg where
  | eolInLiteral
  | eofInLiteral
deriving DecidableEq, Repr

/-- `literal_token::parse_token` (source lines 237-271).  Note the
peculiarities of the source, reproduced faithfully: the end-of-line and
end-of-input checks sit inside the backslash branch (a bare line terminator
is simply appended to the value), a backslash followed by anything other
than `"` or `\` is dropped while the peeked character is appended without
being consumed, and only a plain `get` returning end-of-input aborts. -/
def literal_loop (s : CharStream) (acc : List Int) :
    Except FatalMsg (List Int × Int × CharStream) :=
  let g := s.get
  if h92 : g.1 = 92 then
    let p := g.2.peek
    if p.1 = 34 ∨ p.1 = 92 then
      let g2 := p.2.get
      literal_loop g2.2 (acc ++ [92, g2.1])
    else if p.1 = 10 then .error .eolInLiteral
    else if p.1 = -1 then .error .eofInLiteral
    else literal_loop p.2 (acc ++ [p.1])
  else if hq : g.1 ≠ 34 ∧ g.1 ≠ -1 then
    literal_loop g.2 (acc ++ [g.1])
  else if g.1 = -1 then .error .eofInLiteral
  else
    let la := g.2.get
    .ok (acc, la.1, la.2)
termination_by s.measure
decreasing_by
  · calc (g.2.peek.2.get).2.measure ≤ g.2.peek.2.measure := get_measure_le _
      _ ≤ g.2.measure := peek_measure_le _
      _ < s.measure := get_measure_lt (by rw [h92]; decide)
  · calc g.2.peek.2.measure ≤ g.2.measure := peek_measure_le _
      _ < s.measure := get_measure_lt (by rw [h92]; decide)
  · exact get_measure_lt hq.2

/-- `constant_token::parse_token` (source lines 279-301), the char-literal
sub-scanner.  It has no end-of-input check at all, so an unterminated char
literal loops forever reading `-1`; the embedding therefore takes fuel and
returns `none` when the fuel runs out. -/
def constant_loop (fuel : Nat) (s : CharStream) (acc : List Int) :
    Option (List Int × Int × CharStream) :=
  match fuel with
  | 0 => none
  | fuel + 1 =>
    let g := s.get
    if g.1 = 92 then
      let p := g.2.peek
      if p.1 = 39 ∨ p.1 = 92 then
        let g2 := p.2.get
        constant_loop fuel g2.2 (acc ++ [92, g2.1])
      else constant_loop fuel p.2 (acc ++ [p.1])
    else if g.1 ≠ 39 then constant_loop fuel g.2 (acc ++ [g.1])
    else
      let la := g.2.get
      some (acc, la.1, la.2)

/-- `whitespace_token::parse_token` (source lines 459-467): consume a run of
space/tab/VT/CR (but not LF and not FF) and return the lookahead. -/
def ws_loop (s : CharStream) : Int × CharStream :=
  let g := s.get
  if h : g.1 = 32 ∨ g.1 = 9 ∨ g.1 = 11 ∨ g.1 = 13 then
    ws_loop g.2
  else
    g
termination_by s.measure
decreasing_by
  apply get_measure_lt
  rcases h with h | h | h | h <;> rw [h] <;> decide

/-- The comment-stripping loop of the driver (source lines 556-561): keep
reading until the character just read is a line terminator or the stream
has hit end of input.  `pc` is the initial `peek`; if it is already a line
terminator the loop never runs and the terminator stays unconsumed. -/
def comment_loop (pc : Int) (s : CharStream) : CharStream :=
  if h : pc ≠ 10 ∧ s.eofbit = false then
    let g := s.get
    comment_loop g.1 g.2
  else
    s
termination_by s.measure
decreasing_by
  exact get_measure_lt_of_not_eof h.2

/-- The indentation-counting loop of the driver (source lines 608-618):
`g` is the character just read; while it is not a line terminator and the
stream is good, peek, and consume and count the peeked character only if it
is whitespace. -/
def indent_loop (g : Int) (spaces : Int) (s : CharStream) : Int × CharStream :=
  if h : g ≠ 10 ∧ s.eofbit = false then
    let p := s.peek
    if hs : isspace p.1 then
      let g' := p.2.get
      indent_loop g'.1 (spaces + 1) g'.2
    else
      (spaces, p.2)
  else
    (spaces, s)
termination_by s.measure
decreasing_by
  have hne := isspace_ne_neg_one hs
  obtain ⟨he, -, -⟩ := peek_fst_ne_neg_one hne
  calc s.peek.2.get.2.measure < s.peek.2.measure := by
        rw [he]; exact get_measure_lt_of_not_eof h.2
    _ = s.measure := by rw [he]

/-- The indentation measurement of the driver (source lines 605-619): on a
line terminator, peek; if the next character is whitespace, consume it
(without counting it!) and run `indent_loop`.  Returns the count and the
stream. -/
def measure_indent (s : CharStream) : Int × CharStream :=
  let p := s.peek
  if isspace p.1 then
    let g := p.2.get
    indent_loop g.1 0 g.2
  else
    (0, p.2)

/-- `punctuation_token::parse_token` (source lines 313-451): the maximal
munch switch, followed by one final `get` for the lookahead. -/
def punct_parse (c : Int) (s : CharStream) : List Int × Int × CharStream :=
  let body : List Int × CharStream :=
    if c = 33 then
      let p := s.peek
      if p.1 = 61 then let g := p.2.get; ([c, g.1], g.2) else ([c], p.2)
    else if c = 35 then
      let p := s.peek
      if p.1 = 35 then let g := p.2.get; ([c, g.1], g.2) else ([c], p.2)
    else if c = 37 then
      let p := s.peek
      if p.1 = 61 then let g := p.2.get; ([c, g.1], g.2) else ([c], p.2)
    else if c = 38 then
      let p := s.peek
      if p.1 = 38 ∨ p.1 = 61 then let g := p.2.get; ([c, g.1], g.2) else ([c], p.2)
    else if c = 42 then
      let p := s.peek
      if p.1 = 61 then let g := p.2.get; ([c, g.1], g.2) else ([c], p.2)
    else if c = 43 then
      let p := s.peek
      if p.1 = 43 ∨ p.1 = 61 then let g := p.2.get; ([c, g.1], g.2) else ([c], p.2)
    else if c = 45 then
      let p := s.peek
      if p.1 = 45 ∨ p.1 = 61 then let g := p.2.get; ([c, g.1], g.2)
      else if p.1 = 62 then
        let g := p.2.get
        let p2 := g.2.peek
        if p2.1 = 42 then let g2 := p2.2.get; ([c, g.1, g2.1], g2.2)
        else ([c, g.1], p2.2)
      else ([c], p.2)
    else if c = 46 then
      let p := s.peek
      if p.1 = 46 then
        let g := p.2.get
        let p2 := g.2.peek
        if p2.1 = 46 then let g2 := p2.2.get; ([c, g.1, g2.1], g2.2)
        else ([c, g.1], p2.2)
      else ([c], p.2)
    else if c = 47 then
      let p := s.peek
      if p.1 = 61 then let g := p.2.get; ([c, g.1], g.2) else ([c], p.2)
    else if c = 58 then
      let p := s.peek
      if p.1 = 58 then let g := p.2.get; ([c, g.1], g.2) else ([c], p.2)
    else if c = 60 then
      let p := s.peek
      if p.1 = 61 then let g := p.2.get; ([c, g.1], g.2)
      else if p.1 = 60 then
        let g := p.2.get
        let p2 := g.2.peek
        if p2.1 = 61 then let g2 := p2.2.get; ([c, g.1, g2.1], g2.2)
        else ([c, g.1], p2.2)
      else ([c], p.2)
    else if c = 61 then
      let p := s.peek
      if p.1 = 61 then let g := p.2.get; ([c, g.1], g.2) else ([c], p.2)
    else if c = 62 then
      let p := s.peek
      if p.1 = 61 then let g := p.2.get; ([c, g.1], g.2)
      else if p.1 = 62 then
        let g := p.2.get
        let p2 := g.2.peek
        if p2.1 = 61 then let g2 := p2.2.get; ([c, g.1, g2.1], g2.2)
        else ([c, g.1], p2.2)
      else ([c], p.2)
    else if c = 124 then
      let p := s.peek
      if p.1 = 124 ∨ p.1 = 61 then let g := p.2.get; ([c, g.1], g.2) else ([c], p.2)
    else
      ([c], s)
  let la := body.2.get
  (body.1, la.1, la.2)

/-- The token variants of the source (the `type_of_token` enumeration plus
each class's payload).  `invalid` mirrors the `invalid_token` class, which
the source declares but whose construction the driver never reaches. -/
inductive Token where
  | symbol (s : List Int)
  | integer (s : List Int)
  | literal (s : List Int)
  | constant (s : List Int)
  | punctuation (s : List Int)
  | whitespace
  | eol
  | indent (n : Int)
  | dedent (n : Int)
  | eof
  | invalid (c : Int)
deriving DecidableEq, Repr

/-- Outcome of one dispatch step of the driver loop. -/
inductive StepR where
  /-- `exit(0)` inside `literal_token::parse_token`. -/
  | fatal (m : FatalMsg)
  /-- The char-literal loop ran out of fuel (it never terminates on
  unterminated input). -/
  | fuelOut
  /-- The `token` pointer is read uninitialized: no category matched the
  very first input character, so `token->parse_token` dereferences an
  indeterminate pointer. -/
  | undef
  /-- A token was produced: `fresh` is true when the driver allocated a new
  token object, false when no category matched and the stale `token`
  pointer (the most recently pushed token) was re-parsed and pushed again. -/
  | emit (fresh : Bool) (t : Token) (la : Int) (s : CharStream) (ci : Int)
deriving DecidableEq, Repr

/-- Re-invocation of `parse_token` on an already-allocated token object,
dispatched on its dynamic type: this happens in the driver when no category
matches the input character, so `token` still points to the previously
pushed token.  Every class overwrites its own payload (or keeps it, for the
payload-free and level-carrying classes); `eof_token::parse_token` returns
`0` without reading the stream. -/
def reparse (fuel : Nat) (t : Token) (c : Int) (s : CharStream) : StepR :=
  match t with
  | .symbol _ =>
    let r := symbol_loop s [c]
    .emit false (.symbol r.1) r.2.1 r.2.2 0
  | .integer _ =>
    let r := integer_parse c s
    .emit false (.integer r.1) r.2.1 r.2.2 0
  | .literal _ =>
    match literal_loop s [] with
    | .error m => .fatal m
    | .ok (v, la, s') => .emit false (.literal v) la s' 0
  | .constant _ =>
    match constant_loop fuel s [] with
    | none => .fuelOut
    | some (v, la, s') => .emit false (.constant v) la s' 0
  | .punctuation _ =>
    let r := punct_parse c s
    .emit false (.punctuation r.1) r.2.1 r.2.2 0
  | .whitespace =>
    let r := ws_loop s
    .emit false .whitespace r.1 r.2 0
  | .eol =>
    let g := s.get
    .emit false .eol g.1 g.2 0
  | .indent n =>
    let g := s.get
    .emit false (.indent n) g.1 g.2 0
  | .dedent n =>
    let g := s.get
    .emit false (.dedent n) g.1 g.2 0
  | .eof => .emit false .eof 0 s 0
  | .invalid _ =>
    let g := s.get
    .emit false (.invalid c) g.1 g.2 0

/-- The token choice of the driver on a line terminator (source lines
620-630): compare the measured count with `current_indent` and produce the
`Indent`/`Dedent`/`EndOfLine` token together with the updated
`current_indent`. -/
def indent_token_for (spaces ci : Int) : Token × Int :=
  if spaces > ci then (.indent spaces, spaces)
  else if spaces < ci then (.dedent spaces, spaces)
  else (.eol, ci)

/-- One iteration of the driver's classification (source lines 552-659):
test the categories in source order, run the matching sub-scanner, and
return the produced token, the lookahead and the updated indentation level.
`lastTok` is the value of the driver's `token` pointer before this
iteration (`none` on the first iteration, when it is uninitialized).
The `ci` field of a `reparse` result is ignored by the caller. -/
def classify_step (fuel : Nat) (c : Int) (s : CharStream) (ci : Int)
    (lastTok : Option Token) : StepR :=
  if c = 35 then
    -- comment: strip to the line terminator, then an eol_token parses
    let p := s.peek
    let s1 := comment_loop p.1 p.2
    let g := s1.get
    .emit true .eol g.1 g.2 ci
  else if isalpha c || c = 95 then
    let r := symbol_loop s [c]
    .emit true (.symbol r.1) r.2.1 r.2.2 ci
  else if c = 10 then
    let m := measure_indent s
    let tok_ci := indent_token_for m.1 ci
    let g := m.2.get
    .emit true tok_ci.1 g.1 g.2 tok_ci.2
  else if isspace c then
    let r := ws_loop s
    .emit true .whitespace r.1 r.2 ci
  else if c = 34 then
    match literal_loop s [] with
    | .error m => .fatal m
    | .ok (v, la, s') => .emit true (.literal v) la s' ci
  else if c = 39 then
    match constant_loop fuel s [] with
    | none => .fuelOut
    | some (v, la, s') => .emit true (.constant v) la s' ci
  else if isdigit c then
    let r := integer_parse c s
    .emit true (.integer r.1) r.2.1 r.2.2 ci
  else if ispunct c then
    let r := punct_parse c s
    .emit true (.punctuation r.1) r.2.1 r.2.2 ci
  else
    match lastTok with
    | none => .undef
    | some t =>
      match reparse fuel t c s with
      | .emit _ t' la s' _ => .emit false t' la s' ci
      | r => r

/-- Result of a whole scan.  `done` is the `return true` path with the
completed token stream; `fatal` is `exit(0)` on an unterminated string
literal (the tokens allocated so far are never printed and no `EndOfFile`
is appended); `ub` marks the uninitialized-`token` dereference; `outOfFuel`
covers the non-terminating char-literal loop. -/
inductive ScanResult where
  | done (toks : List Token)
  | fatal (m : FatalMsg) (toks : List Token)
  | ub
  | outOfFuel
deriving DecidableEq, Repr

/-- The tokens reachable through the driver's `token` pointer: because the
no-match path pushes the same pointer again after mutating the object, the
trailing run of pushes of the current object is represented as a value and
a multiplicity, materialized only once the pointer moves on. -/
def flush : Option (Token × Nat) → List Token
  | none => []
  | some (t, n) => List.replicate n t

/-- The driver loop of `token_parser::parse_tokens` (source lines 541-670):
`comm` holds the pushed tokens no longer aliased by the `token` pointer,
`last` the value and push-count of the object `token` currently points to.
The loop runs while the stream is good; afterwards the `eof_token` is
appended. -/
def scan_loop : Nat → Int → CharStream → Int → List Token →
    Option (Token × Nat) → ScanResult
  | 0, _, _, _, _, _ => .outOfFuel
  | fuel + 1, c, s, ci, comm, last =>
    match classify_step fuel c s ci (last.map Prod.fst) with
    | .fatal m => .fatal m (comm ++ flush last)
    | .fuelOut => .outOfFuel
    | .undef => .ub
    | .emit fresh t la s' ci' =>
      let cl : List Token × Option (Token × Nat) :=
        if fresh then (comm ++ flush last, some (t, 1))
        else (comm, some (t, (match last with
                              | some (_, n) => n + 1
                              | none => 1)))
      if s'.eofbit then .done (cl.1 ++ flush cl.2 ++ [.eof])
      else scan_loop fuel la s' ci' cl.1 cl.2

/-- `token_parser::parse_tokens` run on a fresh stream over `input`: read
the first character; if that already failed, the loops are skipped and the
stream is just the `EndOfFile` token, otherwise run the driver loop. -/
def parse_tokens (input : List Int) (fuel : Nat) : ScanResult :=
  let s0 : CharStream := ⟨input, false⟩
  let g := s0.get
  if g.2.eofbit then .done [.eof]
  else scan_loop fuel g.1 g.2 0 [] none

/-! ## Theorems about the scanner -/

/-- Claim C9: scanning is deterministic — the scan is a pure function of
the input character sequence and the fuel, so two runs over fresh character
sources for the same sequence yield identical results; the scanner holds no
state that persists across runs. -/
theorem scan_deterministic (input : List Int) (fuel : Nat) :
    parse_tokens input fuel = parse_tokens input fuel := rfl

/-- Claim C3, evaluation at the failing input: on the input `a`, `0x01`,
`b` (where `0x01` matches no classifier category), the driver never
constructs an `Invalid` token.  Instead the stale `token` pointer — the
symbol token already pushed for `a` — is re-parsed in place and pushed a
second time, so the stream shows the mutated symbol token twice and the
token for `a` is gone. -/
theorem unmatched_char_no_invalid_token :
    parse_tokens [97, 1, 98] 10 =
      .done [.symbol [1, 98], .symbol [1, 98], .eof] ∧
    Token.invalid 1 ∉ [Token.symbol [1, 98], Token.symbol [1, 98], Token.eof] := by
  constructor
  · simp [parse_tokens, scan_loop, classify_step, reparse, symbol_loop, isalpha,
      isdigit, isspace, ispunct, isalnum, CharStream.get, CharStream.peek, flush]
  · decide

/-- Claim C5, counterexample: the lead character `#` is listed in the
punctuation table (`##`), but the driver intercepts every `#` as a comment
before the punctuation test, so the input `##` scans to a bare `EndOfLine`
token and no `Punctuation("##")` token is ever produced. -/
theorem hash_lead_not_punctuation :
    parse_tokens [35, 35] 10 = .done [.eol, .eof] ∧
    Token.punctuation [35, 35] ∉ [Token.eol, Token.eof] := by
  constructor
  · simp [parse_tokens, scan_loop, classify_step, comment_loop, CharStream.get,
      CharStream.peek, flush]
  · decide

/-- Claim C5 as amended: for every punctuation lead character of the table
other than `#` (which the driver strips as a comment), an input consisting
of the longest legal extension for that lead yields a single `Punctuation`
token whose lexeme is the full sequence, never split. -/
theorem punct_maximal_munch :
    parse_tokens [33, 61] 10 = .done [.punctuation [33, 61], .eof] ∧
    parse_tokens [37, 61] 10 = .done [.punctuation [37, 61], .eof] ∧
    parse_tokens [38, 38] 10 = .done [.punctuation [38, 38], .eof] ∧
    parse_tokens [42, 61] 10 = .done [.punctuation [42, 61], .eof] ∧
    parse_tokens [43, 43] 10 = .done [.punctuation [43, 43], .eof] ∧
    parse_tokens [45, 62, 42] 10 = .done [.punctuation [45, 62, 42], .eof] ∧
    parse_tokens [46, 46, 46] 10 = .done [.punctuation [46, 46, 46], .eof] ∧
    parse_tokens [47, 61] 10 = .done [.punctuation [47, 61], .eof] ∧
    parse_tokens [58, 58] 10 = .done [.punctuation [58, 58], .eof] ∧
    parse_tokens [60, 60, 61] 10 = .done [.punctuation [60, 60, 61], .eof] ∧
    parse_tokens [61, 61] 10 = .done [.punctuation [61, 61], .eof] ∧
    parse_tokens [62, 62, 61] 10 = .done [.punctuation [62, 62, 61], .eof] ∧
    parse_tokens [124, 124] 10 = .done [.punctuation [124, 124], .eof] ∧
    parse_tokens [59] 10 = .done [.punctuation [59], .eof] := by
  refine ⟨?_, ?_, ?_, ?_, ?_, ?_, ?_, ?_, ?_, ?_, ?_, ?_, ?_, ?_⟩ <;>
    simp [parse_tokens, scan_loop, classify_step, punct_parse, isalpha, isdigit,
      isspace, ispunct, isalnum, CharStream.get, CharStream.peek, flush]

/-- Claim C1, counterexample: a bare line terminator inside a double-quoted
string literal is not fatal.  On the input `"a`, LF, `b"x` the scan runs to
completion: the line terminator is copied into the literal's value (the
end-of-line check of the source sits only inside the backslash branch),
further tokens follow, and `EndOfFile` is emitted. -/
theorem literal_eol_not_fatal :
    parse_tokens [34, 97, 10, 98, 34, 120] 10 =
      .done [.literal [97, 10, 98], .symbol [120], .eof] := by
  simp [parse_tokens, scan_loop, classify_step, literal_loop, symbol_loop,
    isalpha, isdigit, isspace, ispunct, isalnum, CharStream.get,
    CharStream.peek, flush]

/-- Claim C6, counterexample: inside a string literal, a backslash followed
by `n` does not pass through as two characters, nor is `n` copied exactly
once: the backslash is dropped and `n` is copied twice (once from the peek,
which does not consume it, and once when it is subsequently read).  Input
`"a\nz"` yields the literal value `annz`. -/
theorem escape_char_copied_twice :
    parse_tokens [34, 97, 92, 110, 122, 34] 10 =
      .done [.literal [97, 110, 110, 122], .eof] ∧
    Token.literal [97, 110, 122] ∉ [Token.literal [97, 110, 110, 122], Token.eof] ∧
    Token.literal [97, 92, 110, 122] ∉ [Token.literal [97, 110, 110, 122], Token.eof] := by
  refine ⟨?_, by decide, by decide⟩
  simp [parse_tokens, scan_loop, classify_step, literal_loop, isalpha, isdigit,
    isspace, ispunct, isalnum, CharStream.get, CharStream.peek, flush]

/-- Claim C2, counterexample: for a first line at indentation 0 and a
second line beginning with exactly two spaces, the emitted token is
`Indent(1)`, not `Indent(2)`: the indentation counter consumes the first
whitespace character before it starts counting. -/
theorem indent_two_spaces_not_two :
    parse_tokens [120, 10, 32, 32, 121] 10 =
      .done [.symbol [120], .indent 1, .symbol [121], .eof] ∧
    Token.indent 2 ∉
      [Token.symbol [120], Token.indent 1, Token.symbol [121], Token.eof] := by
  constructor
  · simp [parse_tokens, scan_loop, classify_step, symbol_loop, measure_indent,
      indent_loop, indent_token_for, isalpha, isdigit, isspace, ispunct,
      isalnum, CharStream.get, CharStream.peek, flush]
  · decide

/-- Claim C10, counterexample: when the comment text is empty (`#`
immediately followed by the line terminator), the comment loop consumes
nothing, the `EndOfLine` token's parse returns the line terminator as
lookahead, and the indentation sub-scanner does run on the following line:
`#`, LF, two spaces, `x` produces `Indent(1)` and no `Whitespace` token. -/
theorem empty_comment_indent_scanner_runs :
    parse_tokens [35, 10, 32, 32, 120] 10 =
      .done [.eol, .indent 1, .symbol [120], .eof] ∧
    Token.indent 1 ∈ [Token.eol, Token.indent 1, Token.symbol [120], Token.eof] := by
  constructor
  · simp [parse_tokens, scan_loop, classify_step, comment_loop, symbol_loop,
      measure_indent, indent_loop, indent_token_for, isalpha, isdigit, isspace,
      ispunct, isalnum, CharStream.get, CharStream.peek, flush]
  · decide

-- The char-literal loop never produces a value when the remaining input
-- holds no closing single quote: it keeps reading `-1` past end of input,
-- so every amount of fuel is exhausted.
theorem constant_loop_no_close (fuel : Nat) :
    ∀ (cs acc : List Int) (b : Bool), (39 : Int) ∉ cs →
      constant_loop fuel ⟨cs, b⟩ acc = none := by
  induction fuel with
  | zero => intro cs acc b _; rfl
  | succ fuel ih =>
    intro cs acc b h
    cases b with
    | true =>
      simp only [constant_loop, CharStream.get, if_true]
      norm_num
      exact ih cs _ true h
    | false =>
      match cs with
      | [] =>
        simp only [constant_loop, CharStream.get]
        norm_num
        exact ih [] _ true (by simp)
      | c :: cs' =>
        have hc : c ≠ 39 := fun hc => h (hc ▸ List.mem_cons_self c cs')
        have h' : (39 : Int) ∉ cs' := fun hm => h (List.mem_cons_of_mem c hm)
        simp only [constant_loop, CharStream.get]
        norm_num
        by_cases h92 : c = 92
        · subst h92
          simp only [if_true, CharStream.peek]
          norm_num
          match cs' with
          | [] =>
            simp only []
            norm_num
            exact ih [] _ true (by simp)
          | p :: cs'' =>
            have hp : p ≠ 39 := fun hp => h' (hp ▸ List.mem_cons_self p cs'')
            have h'' : (39 : Int) ∉ cs'' := fun hm => h' (List.mem_cons_of_mem p hm)
            simp only []
            by_cases hp92 : p = 92
            · subst hp92
              simp only [if_true, CharStream.get]
              norm_num
              exact ih cs'' _ false h''
            · rw [if_neg (by simp [hp, hp92])]
              exact ih (p :: cs'') _ false h'
        · rw [if_neg h92, if_neg (by simp [hc])]
          exact ih cs' _ false h'

/-- Claim C8: an unterminated single-quoted char literal (no closing quote
before end of input) makes the scan run forever — the char-literal
sub-scanner has no end-of-input check and keeps reading past end of input,
so for every amount of fuel the whole scan exhausts it and never
terminates normally. -/
theorem char_literal_unterminated_loops (cs : List Int) (fuel : Nat)
    (h : (39 : Int) ∉ cs) : parse_tokens (39 :: cs) fuel = .outOfFuel := by
  cases fuel with
  | zero =>
    simp [parse_tokens, scan_loop, CharStream.get]
  | succ fuel =>
    simp [parse_tokens, CharStream.get, scan_loop, classify_step, isalpha,
      isdigit, isspace, ispunct, isalnum,
      constant_loop_no_close fuel cs [] false h]

/-- Witness for C8's theorem at a concrete unterminated char literal. -/
theorem char_literal_unterminated_loops_witness :
    (39 : Int) ∉ [(97 : Int)] ∧ parse_tokens [39, 97] 5 = .outOfFuel :=
  ⟨by decide, char_literal_unterminated_loops [97] 5 (by decide)⟩

-- `get` and `peek` never introduce characters into the remaining stream.
theorem get_chars_sub {x : Int} {s : CharStream} (h : x ∉ s.chars) :
    x ∉ s.get.2.chars := by
  obtain ⟨cs, b⟩ := s
  cases b <;> cases cs <;> simp_all [CharStream.get]

theorem peek_chars (s : CharStream) : s.peek.2.chars = s.chars := by
  obtain ⟨cs, b⟩ := s
  cases b <;> cases cs <;> simp [CharStream.peek]

theorem get_fst_mem {s : CharStream} (h : s.get.1 ≠ -1) : s.get.1 ∈ s.chars := by
  obtain ⟨cs, b⟩ := s
  cases b <;> cases cs <;> simp_all [CharStream.get]

theorem peek_fst_mem {s : CharStream} (h : s.peek.1 ≠ -1) : s.peek.1 ∈ s.chars := by
  obtain ⟨cs, b⟩ := s
  cases b <;> cases cs <;> simp_all [CharStream.peek]

-- The string-literal loop never produces a value when the remaining input
-- has no closing double quote: it always ends in one of the two fatal
-- reports of the source.
theorem literal_loop_no_close (s : CharStream) (acc : List Int)
    (h : (34 : Int) ∉ s.chars) : ∃ m, literal_loop s acc = .error m := by
  induction s, acc using literal_loop.induct with
  | case1 s acc g hg p hp g2 ih =>
    rcases hp with hp | hp
    · exfalso
      have hmem : (34 : Int) ∈ (s.get).2.chars := by
        have := peek_fst_mem (s := (s.get).2) (by rw [hp]; decide)
        rwa [hp] at this
      exact get_chars_sub h hmem
    · have h2 : (34 : Int) ∉ ((s.get).2.peek.2.get).2.chars :=
        get_chars_sub (by rw [peek_chars]; exact get_chars_sub h)
      obtain ⟨m, hm⟩ := ih h2
      refine ⟨m, ?_⟩
      rw [literal_loop]
      simp only [show (s.get).1 = 92 from hg, show ((s.get).2.peek).1 = 92 from hp]
      norm_num
      exact hm
  | case2 s acc g hg p hnp hp =>
    refine ⟨.eolInLiteral, ?_⟩
    rw [literal_loop]
    simp only [show (s.get).1 = 92 from hg, show ((s.get).2.peek).1 = 10 from hp]
    norm_num
  | case3 s acc g hg p hnp hn10 hp =>
    refine ⟨.eofInLiteral, ?_⟩
    rw [literal_loop]
    simp only [show (s.get).1 = 92 from hg, show ((s.get).2.peek).1 = -1 from hp]
    norm_num
  | case4 s acc g hg p hnp hn10 hnm1 ih =>
    have h2 : (34 : Int) ∉ ((s.get).2.peek).2.chars := by
      rw [peek_chars]; exact get_chars_sub h
    obtain ⟨m, hm⟩ := ih h2
    refine ⟨m, ?_⟩
    rw [literal_loop]
    simp only [show (s.get).1 = 92 from hg]
    norm_num
    rw [if_neg hnp, if_neg hn10, if_neg hnm1]
    exact hm
  | case5 s acc g hg hq ih =>
    have hne : (s.get).1 ≠ 34 := fun hc => h (hc ▸ get_fst_mem (hc ▸ hq.2))
    obtain ⟨m, hm⟩ := ih (get_chars_sub h)
    refine ⟨m, ?_⟩
    rw [literal_loop]
    rw [dif_neg hg, dif_pos hq]
    exact hm
  | case6 s acc g hg hq hm1 =>
    refine ⟨.eofInLiteral, ?_⟩
    rw [literal_loop]
    rw [dif_neg hg, dif_neg hq, if_pos hm1]
  | case7 s acc g hg hq hnm1 =>
    -- the closing-quote branch: impossible, the gotten character would be 34
    exfalso
    have h34 : (s.get).1 = 34 := by
      rcases not_and_or.mp hq with hc | hc
      · exact not_not.mp hc
      · exact absurd (not_not.mp hc) hnm1
    exact h (h34 ▸ get_fst_mem (by rw [h34]; decide))

/-- Claim C1 as amended: when end of input is reached inside a double-quoted
string literal before the closing quote (no `"` in the remaining input), the
scan reports an unterminated-literal condition and terminates immediately —
the result is a fatal abort carrying one of the two report messages, the
token stream is never completed, and no token (not even `EndOfFile`) is
emitted.  (A bare line terminator inside the string is *not* fatal: it is
copied into the value and scanning continues; only end of input, or a
backslash immediately followed by a line terminator or end of input,
aborts.) -/
theorem literal_eof_fatal (cs : List Int) (fuel : Nat) (h : (34 : Int) ∉ cs) :
    ∃ m, parse_tokens (34 :: cs) (fuel + 1) = .fatal m [] := by
  obtain ⟨m, hm⟩ := literal_loop_no_close ⟨cs, false⟩ [] h
  refine ⟨m, ?_⟩
  simp [parse_tokens, scan_loop, classify_step, CharStream.get, isalpha,
    isdigit, isspace, ispunct, isalnum, hm, flush]

/-- Witness for C1's amended theorem at the concrete input `"a`. -/
theorem literal_eof_fatal_witness :
    (34 : Int) ∉ [(97 : Int)] ∧
      ∃ m, parse_tokens [34, 97] 1 = .fatal m [] :=
  ⟨by decide, literal_eof_fatal [97] 0 (by decide)⟩

/-- Claim C6 as amended: inside a string literal, when a backslash is
followed by any character other than the matching double quote, another
backslash, a line terminator or end of input, the backslash is dropped and
that following character is copied twice into the literal's value — once
when it is peeked (without being consumed) and once when the loop
subsequently reads it.  No escape sequence is interpreted. -/
theorem literal_escape_drops_backslash (c : Int) (rest acc : List Int)
    (h34 : c ≠ 34) (h92 : c ≠ 92) (h10 : c ≠ 10) (hm1 : c ≠ -1) :
    literal_loop ⟨92 :: c :: rest, false⟩ acc =
      literal_loop ⟨rest, false⟩ (acc ++ [c, c]) := by
  rw [literal_loop]
  simp only [CharStream.get, CharStream.peek]
  norm_num [h34, h92, h10, hm1]
  rw [literal_loop]
  simp only [CharStream.get]
  norm_num [h34, h92, hm1]

/-- Witness for C6's amended theorem at the escape `\n` inside `"a\nz"`. -/
theorem literal_escape_drops_backslash_witness :
    (110 : Int) ≠ 34 ∧ (110 : Int) ≠ 92 ∧ (110 : Int) ≠ 10 ∧ (110 : Int) ≠ -1 ∧
      literal_loop ⟨[92, 110, 34], false⟩ [] =
        literal_loop ⟨[34], false⟩ [110, 110] :=
  ⟨by decide, by decide, by decide, by decide,
    literal_escape_drops_backslash 110 [34] [] (by decide) (by decide)
      (by decide) (by decide)⟩

-- The indentation-counting loop adds one per whitespace character of the
-- run it sees, stopping (without consuming) at the first non-whitespace.
theorem indent_loop_spaces (m : Nat) (c : Int) (rest : List Int)
    (hc : isspace c = false) :
    ∀ spaces : Int,
      indent_loop 32 spaces ⟨List.replicate m 32 ++ c :: rest, false⟩ =
        (spaces + m, ⟨c :: rest, false⟩) := by
  induction m with
  | zero =>
    intro spaces
    rw [indent_loop]
    simp [CharStream.peek, hc]
  | succ m ih =>
    intro spaces
    rw [indent_loop]
    simp only [List.replicate_succ, List.cons_append, CharStream.peek,
      CharStream.get]
    norm_num [isspace]
    rw [ih (spaces + 1)]
    congr 1
    ring

-- The indentation measurement of the driver under-counts by one: for a
-- line beginning with `k ≥ 1` spaces followed by a non-whitespace
-- character, the first space is consumed before counting starts, so the
-- reported count is `k - 1`.
theorem measure_indent_count (k : Nat) (hk : 1 ≤ k) (c : Int)
    (rest : List Int) (hc : isspace c = false) :
    measure_indent ⟨List.replicate k 32 ++ c :: rest, false⟩ =
      ((k : Int) - 1, ⟨c :: rest, false⟩) := by
  obtain ⟨m, rfl⟩ : ∃ m, k = m + 1 := ⟨k - 1, (Nat.succ_pred_eq_of_pos hk).symm⟩
  unfold measure_indent
  simp only [List.replicate_succ, List.cons_append, CharStream.peek,
    CharStream.get]
  norm_num [isspace]
  rw [indent_loop_spaces m c rest hc 0]
  norm_num

/-- Claim C2 as amended: for an input whose first line (`x`) is at
indentation 0 and whose second line begins with `k ≥ 2` space characters,
the token stream contains `Indent(k-1)` — not `Indent(k)` — immediately
preceding the first token of line two: the indentation sub-scanner's count
equals the number of leading whitespace characters *minus one* (the first
whitespace character is consumed before counting starts), and
`current_indent` is updated to that count when it differs from the
previous value. -/
theorem indent_count_off_by_one (k f : Nat) (hk : 2 ≤ k) :
    parse_tokens ([120, 10] ++ List.replicate k 32 ++ [121]) (f + 3) =
      .done [.symbol [120], .indent ((k : Int) - 1), .symbol [121], .eof] := by
  have h1 : symbol_loop ⟨10 :: (List.replicate k 32 ++ [121]), false⟩ [120] =
      ([120], 10, ⟨List.replicate k 32 ++ [121], false⟩) := by
    rw [symbol_loop]
    simp [CharStream.get, isalpha, isdigit]
  have h2 := measure_indent_count k (by omega) 121 [] (by simp [isspace])
  have h3 : symbol_loop ⟨[], false⟩ [121] = ([121], -1, ⟨[], true⟩) := by
    rw [symbol_loop]
    simp [CharStream.get, isalpha, isdigit]
  have hlt : (0 : Int) < (k : Int) - 1 := by omega
  simp [parse_tokens, CharStream.get, scan_loop, classify_step,
    indent_token_for, h1, h2, h3, hlt, isalpha, isdigit, isspace, ispunct,
    isalnum, flush]

/-- Witness for C2's amended theorem at `k = 2` leading spaces. -/
theorem indent_count_off_by_one_witness :
    2 ≤ 2 ∧
      parse_tokens ([120, 10] ++ List.replicate 2 32 ++ [121]) 3 =
        .done [.symbol [120], .indent 1, .symbol [121], .eof] :=
  ⟨by decide, by
    have h := indent_count_off_by_one 2 0 (by decide)
    norm_num at h
    exact h⟩

-- The comment loop consumes the comment text and the terminating line
-- terminator, provided the text is nonempty (the initial peeked character
-- is its first character, not the terminator) and holds no terminator.
theorem comment_loop_consumes (cmt : List Int) :
    ∀ (rest : List Int) (pc : Int), pc ≠ 10 → (10 : Int) ∉ cmt →
      comment_loop pc ⟨cmt ++ 10 :: rest, false⟩ = ⟨rest, false⟩ := by
  induction cmt with
  | nil =>
    intro rest pc hpc _
    rw [comment_loop]
    simp [hpc, CharStream.get]
    rw [comment_loop]
    simp
  | cons a cmt ih =>
    intro rest pc hpc h
    rw [comment_loop]
    simp [hpc, CharStream.get]
    exact ih rest a (fun ha => h (ha ▸ List.mem_cons_self a cmt))
      (fun hm => h (List.mem_cons_of_mem a hm))

/-- Claim C7: for the input `#` + comment text + line terminator + `code`
(nonempty comment text without a line terminator), the comment text is
discarded entirely and produces no token; a single `EndOfLine` token
appears where the comment began, followed by the tokens for `code`. -/
theorem comment_collapse (cmt : List Int) (f : Nat) (hne : cmt ≠ [])
    (h10 : (10 : Int) ∉ cmt) :
    parse_tokens (35 :: cmt ++ 10 :: [99, 111, 100, 101]) (f + 2) =
      .done [.eol, .symbol [99, 111, 100, 101], .eof] := by
  obtain ⟨a, cmt', rfl⟩ : ∃ a cmt', cmt = a :: cmt' := by
    cases cmt with
    | nil => exact absurd rfl hne
    | cons a cmt' => exact ⟨a, cmt', rfl⟩
  have ha : a ≠ 10 := fun h => h10 (h ▸ List.mem_cons_self a cmt')
  have hcl := comment_loop_consumes (a :: cmt') [99, 111, 100, 101] a ha h10
  simp only [List.cons_append] at hcl
  have hsym : symbol_loop ⟨[111, 100, 101], false⟩ [99] =
      ([99, 111, 100, 101], -1, ⟨[], true⟩) := by
    rw [symbol_loop]
    simp only [CharStream.get]
    norm_num [isalpha, isdigit]
    rw [symbol_loop]
    simp only [CharStream.get]
    norm_num [isalpha, isdigit]
    rw [symbol_loop]
    simp only [CharStream.get]
    norm_num [isalpha, isdigit]
    rw [symbol_loop]
    simp only [CharStream.get]
    norm_num [isalpha, isdigit]
  simp [parse_tokens, CharStream.get, CharStream.peek, scan_loop,
    classify_step, hcl, hsym, isalpha, isdigit, isspace, ispunct, isalnum,
    flush]

/-- Witness for C7's theorem at the comment text `cmt`. -/
theorem comment_collapse_witness :
    [(99 : Int), 109, 116] ≠ [] ∧ (10 : Int) ∉ [(99 : Int), 109, 116] ∧
      parse_tokens (35 :: [99, 109, 116] ++ 10 :: [99, 111, 100, 101]) 2 =
        .done [.eol, .symbol [99, 111, 100, 101], .eof] :=
  ⟨by decide, by decide,
    comment_collapse [99, 109, 116] 0 (by decide) (by decide)⟩

/-- Claim C10 as amended: for a `#` comment with *nonempty* text, the
comment branch consumes the line terminator that ends the comment, so the
indentation sub-scanner never runs on the following line: no `Indent` or
`Dedent` token is emitted for it and its leading whitespace is tokenized as
an ordinary `Whitespace` token.  (When the comment text is empty the line
terminator is not consumed and the indentation sub-scanner does run.) -/
theorem comment_line_whitespace_ordinary (cmt : List Int) (f : Nat)
    (hne : cmt ≠ []) (h10 : (10 : Int) ∉ cmt) :
    parse_tokens (35 :: cmt ++ 10 :: [32, 32, 120]) (f + 3) =
      .done [.eol, .whitespace, .symbol [120], .eof] := by
  obtain ⟨a, cmt', rfl⟩ : ∃ a cmt', cmt = a :: cmt' := by
    cases cmt with
    | nil => exact absurd rfl hne
    | cons a cmt' => exact ⟨a, cmt', rfl⟩
  have ha : a ≠ 10 := fun h => h10 (h ▸ List.mem_cons_self a cmt')
  have hcl := comment_loop_consumes (a :: cmt') [32, 32, 120] a ha h10
  simp only [List.cons_append] at hcl
  have hws : ws_loop ⟨[32, 120], false⟩ = (120, ⟨[], false⟩) := by
    rw [ws_loop]
    simp only [CharStream.get]
    norm_num
    rw [ws_loop]
    simp only [CharStream.get]
    norm_num
  have hsym : symbol_loop ⟨[], false⟩ [120] = ([120], -1, ⟨[], true⟩) := by
    rw [symbol_loop]
    simp [CharStream.get, isalpha, isdigit]
  simp [parse_tokens, CharStream.get, CharStream.peek, scan_loop,
    classify_step, hcl, hws, hsym, isalpha, isdigit, isspace, ispunct,
    isalnum, flush]

/-- Witness for C10's amended theorem at the comment text `c`. -/
theorem comment_line_whitespace_ordinary_witness :
    [(99 : Int)] ≠ [] ∧ (10 : Int) ∉ [(99 : Int)] ∧
      parse_tokens (35 :: [99] ++ 10 :: [32, 32, 120]) 3 =
        .done [.eol, .whitespace, .symbol [120], .eof] :=
  ⟨by decide, by decide,
    comment_line_whitespace_ordinary [99] 0 (by decide) (by decide)⟩

-- Re-parsing an already-allocated token object preserves its dynamic type,
-- so re-parsing a non-`EndOfFile` token never produces an `EndOfFile` one.
theorem reparse_emit_ne_eof {fuel : Nat} {t₀ : Token} {c : Int}
    {s : CharStream} {fr : Bool} {t : Token} {la : Int} {s' : CharStream}
    {ci : Int} (h₀ : t₀ ≠ Token.eof)
    (h : reparse fuel t₀ c s = .emit fr t la s' ci) : t ≠ Token.eof := by
  cases t₀ <;> simp only [reparse] at h <;> (try split at h) <;> cases h <;>
    first
      | exact absurd rfl h₀
      | simp

-- Every token the dispatch emits is a non-`EndOfFile` token, provided the
-- stale `token` pointer (if consulted) does not hold one.
theorem classify_step_emit_ne_eof {fuel : Nat} {c : Int} {s : CharStream}
    {ci : Int} {lastTok : Option Token} {fr : Bool} {t : Token} {la : Int}
    {s' : CharStream} {ci' : Int}
    (h₀ : ∀ t₀, lastTok = some t₀ → t₀ ≠ Token.eof)
    (h : classify_step fuel c s ci lastTok = .emit fr t la s' ci') :
    t ≠ Token.eof := by
  unfold classify_step at h
  split at h
  · cases h; simp
  · split at h
    · cases h; simp
    · split at h
      · -- indentation: the emitted token is indent, dedent or eol
        cases h
        unfold indent_token_for
        split
        · simp
        · split <;> simp
      · split at h
        · cases h; simp
        · split at h
          · split at h
            · cases h
            · cases h; simp
          · split at h
            · split at h
              · cases h
              · cases h; simp
            · split at h
              · cases h; simp
              · split at h
                · cases h; simp
                · -- no category matched: the stale pointer is re-parsed
                  split at h
                  · cases h
                  · rename_i t₀
                    split at h
                    · rename_i heq
                      cases h
                      exact reparse_emit_ne_eof (h₀ t₀ rfl) heq
                    · rename_i x heq hne
                      exact (hne fr t la s' ci' h).elim

theorem eof_not_mem_flush {last : Option (Token × Nat)}
    (h : ∀ t n, last = some (t, n) → t ≠ Token.eof) :
    Token.eof ∉ flush last := by
  match last with
  | none => simp [flush]
  | some (t, n) =>
    simp only [flush, List.mem_replicate]
    intro hc
    exact h t n rfl hc.2.symm

-- Invariant of the driver loop: a completed stream is the tokens pushed by
-- the loop — none of which is `EndOfFile` — followed by the one
-- `EndOfFile` appended after the loop.
theorem scan_loop_done_shape :
    ∀ (fuel : Nat) (c : Int) (s : CharStream) (ci : Int) (comm : List Token)
      (last : Option (Token × Nat)) (l : List Token),
      Token.eof ∉ comm →
      (∀ t n, last = some (t, n) → t ≠ Token.eof) →
      scan_loop fuel c s ci comm last = .done l →
      ∃ l', l = l' ++ [Token.eof] ∧ Token.eof ∉ l' := by
  intro fuel
  induction fuel with
  | zero =>
    intro c s ci comm last l _ _ h
    simp [scan_loop] at h
  | succ fuel ih =>
    intro c s ci comm last l hcomm hlast h
    simp only [scan_loop] at h
    rcases hcs : classify_step fuel c s ci (Option.map Prod.fst last) with
      m | - | - | ⟨fresh, t, la, s', ci'⟩
    · rw [hcs] at h; simp at h
    · rw [hcs] at h; simp at h
    · rw [hcs] at h; simp at h
    · rw [hcs] at h
      simp only at h
      have ht : t ≠ Token.eof := by
        refine classify_step_emit_ne_eof ?_ hcs
        intro t₀ ht₀
        match last, ht₀ with
        | some (t₀, n), rfl => exact hlast t₀ n rfl
    -- the updated committed list and pointer value keep the invariant
      have hstep :
          ∀ (comm' : List Token) (last' : Option (Token × Nat)),
            Token.eof ∉ comm' →
            (∀ t' n, last' = some (t', n) → t' ≠ Token.eof) →
            (if s'.eofbit then
                ScanResult.done (comm' ++ flush last' ++ [Token.eof])
              else scan_loop fuel la s' ci' comm' last') = .done l →
            ∃ l', l = l' ++ [Token.eof] ∧ Token.eof ∉ l' := by
        intro comm' last' hc' hl' hh
        by_cases he : s'.eofbit
        · rw [if_pos he] at hh
          injection hh with hh
          refine ⟨comm' ++ flush last', by rw [← hh, List.append_assoc], ?_⟩
          simp only [List.mem_append]
          rintro (hmem | hmem)
          · exact hc' hmem
          · exact eof_not_mem_flush hl' hmem
        · rw [if_neg he] at hh
          exact ih la s' ci' comm' last' l hc' hl' hh
      by_cases hfr : fresh
      · subst hfr
        simp only [if_true] at h
        refine hstep (comm ++ flush last) (some (t, 1)) ?_ ?_ h
        · simp only [List.mem_append]
          rintro (hmem | hmem)
          · exact hcomm hmem
          · exact eof_not_mem_flush hlast hmem
        · intro t' n ht'
          injection ht' with ht'
          rw [Prod.mk.injEq] at ht'
          exact ht'.1 ▸ ht
      · simp only [hfr, if_false] at h
        refine hstep comm (some (t, _)) hcomm ?_ h
        intro t' n ht'
        injection ht' with ht'
        rw [Prod.mk.injEq] at ht'
        exact ht'.1 ▸ ht

/-- Claim C4: for every input whose scan runs to completion, the resulting
token stream contains exactly one `EndOfFile` token and it is the final
element of the stream. -/
theorem eof_token_unique_last (input : List Int) (fuel : Nat) (l : List Token)
    (h : parse_tokens input fuel = .done l) :
    List.count Token.eof l = 1 ∧ l.getLast? = some Token.eof := by
  unfold parse_tokens at h
  simp only [] at h
  split at h
  · injection h with h
    subst h
    simp
  · obtain ⟨l', rfl, hni⟩ :=
      scan_loop_done_shape fuel _ _ 0 [] none l (by simp) (by simp) h
    refine ⟨?_, List.getLast?_concat l'⟩
    rw [List.count_append, List.count_eq_zero.mpr hni]
    simp

/-- Witness for C4's theorem at the one-symbol input `x`. -/
theorem eof_token_unique_last_witness :
    List.count Token.eof [Token.symbol [120], Token.eof] = 1 ∧
      List.getLast? [Token.symbol [120], Token.eof] = some Token.eof :=
  eof_token_unique_last [120] 1 [Token.symbol [120], Token.eof] (by
    simp [parse_tokens, scan_loop, classify_step, symbol_loop, isalpha,
      isdigit, isspace, ispunct, isalnum, CharStream.get, flush])

end MyPython
